import Mathlib

/-!
Verification of the blackvideo-accessories link-deployment core.

This file gives a shallow embedding, in Lean 4, of the platform-resolution
and link-deployment engine of the repository:

* `YouTubeModule`      — the YouTube platform handler (youtube.url.module).
* `HybridConfig`       — the platform registry and event system (hybrid.config).
* `FileLinkReader`     — multi-format URL extraction (utils/filesLinkReader).
* `LinkProcessor`      — extraction dispatch and URL utilities (links.processors).
* `LinkDeployerCore`   — the deployment state machine (link.core.deployer.dev),
  modelled as a world-state transformer whose observables are the calls made
  to the playback surfaces and the attached playlist observers.

Host-platform builtins that the source calls (the WHATWG `URL` constructor,
`JSON.parse`, `RegExp` matching for the handful of concrete regex literals,
DOM event listener dispatch) are modelled explicitly below; everything else is
translated directly from the TypeScript source.  Theorems at the end of the
file settle the frozen claims C1–C10 about this code.
-/

/-! ### Generic helpers: substring search, JS whitespace, association lists -/

/-- Source `containsSubList needle hay`: `hay` has `needle` as a contiguous sublist.
Models JavaScript `String.prototype.includes`. -/
def containsSubList (needle : List Char) : List Char → Bool
  | [] => needle.isEmpty
  | c :: rest => needle.isPrefixOf (c :: rest) || containsSubList needle rest

/-- Model of JavaScript `hay.includes(needle)`. -/
def containsSub (needle hay : String) : Bool :=
  containsSubList needle.toList hay.toList

/-- Model of the JavaScript regex class `\s` on the characters that occur in
URLs and text files (space, tab, newline, carriage return, vertical tab,
form feed). -/
def isJsSpace (c : Char) : Bool :=
  c = ' ' || c = '\t' || c = '\n' || c = '\r' || c = '\x0b' || c = '\x0c'

/-- Model of JavaScript `String.prototype.toLowerCase` (ASCII case folding). -/
def toLowerStr (s : String) : String :=
  String.mk (s.toList.map Char.toLower)

/-- Model of JavaScript `String.prototype.trim`. -/
def trimStr (s : String) : String :=
  String.mk (((s.toList.dropWhile isJsSpace).reverse.dropWhile isJsSpace).reverse)

/-- Model of JavaScript `String.prototype.split` with a one-character
separator (`"".split(sep)` gives `[""]`, like the builtin). -/
def splitOnChar (sep : Char) : List Char → List (List Char)
  | [] => [[]]
  | c :: rest =>
    if c = sep then [] :: splitOnChar sep rest
    else
      match splitOnChar sep rest with
      | [] => [[c]]
      | g :: gs => (c :: g) :: gs

/-- Break a character list at the first occurrence of `sep`: the part before
it and, when `sep` occurs, the part after it. -/
def splitFirst (sep : Char) : List Char → List Char × Option (List Char)
  | [] => ([], none)
  | c :: rest =>
    if c = sep then ([], some rest)
    else
      let (pre, post) := splitFirst sep rest
      (c :: pre, post)

/-- Lookup in an insertion-ordered association list (model of `Map.get`). -/
def alGet {β : Type} (m : List (String × β)) (key : String) : Option β :=
  (m.find? (fun kv => kv.1 == key)).map (fun kv => kv.2)

/-- Insert-or-replace in an insertion-ordered association list (model of
`Map.set`: replacing an existing key keeps its original position). -/
def alSet {β : Type} (m : List (String × β)) (key : String) (v : β) :
    List (String × β) :=
  match m with
  | [] => [(key, v)]
  | (k, w) :: rest => if k == key then (k, v) :: rest else (k, w) :: alSet rest key v

/-! ### Model of the WHATWG `URL` constructor

The source calls `new URL(url)` (throwing on malformed input) and reads
`protocol`, `hostname`, `pathname` and `searchParams`.  We model the
constructor for `scheme://host[/path][?query][#fragment]` inputs: parsing
fails (`none`, the thrown-exception case) when there is no alphabetic scheme
followed by `://` and a non-empty host. -/

structure URLRec where
  protocol : String
  hostname : String
  pathname : String
  search : List (String × String)

/-- Split a raw query string into key/value pairs (model of `URLSearchParams`;
percent-decoding is not modelled). -/
def parseQueryPairs (q : List Char) : List (String × String) :=
  ((splitOnChar '&' q).filter (fun s => !s.isEmpty)).map (fun kv =>
    match splitFirst '=' kv with
    | (k, none) => (String.mk k, "")
    | (k, some v) => (String.mk k, String.mk v))

/-- Model of `new URL(s)`: `none` models the constructor throwing. -/
def parseURL (s : String) : Option URLRec :=
  let cs := (trimStr s).toList
  let scheme := cs.takeWhile Char.isAlpha
  match cs.drop scheme.length with
  | ':' :: '/' :: '/' :: r2 =>
    if scheme.isEmpty then none
    else
      let host := r2.takeWhile (fun c => c ≠ '/' && c ≠ '?' && c ≠ '#')
      if host.isEmpty then none
      else
        let r3 := r2.drop host.length
        let path := r3.takeWhile (fun c => c ≠ '?' && c ≠ '#')
        let query :=
          match r3.drop path.length with
          | '?' :: qs => qs.takeWhile (fun c => c ≠ '#')
          | _ => []
        some { protocol := String.mk (scheme.map Char.toLower) ++ ":"
               hostname := String.mk host
               pathname := if path.isEmpty then "/" else String.mk path
               search := parseQueryPairs query }
  | _ => none

/-- Model of `urlObj.searchParams.get(key)`. -/
def searchParamsGet (u : URLRec) (key : String) : Option String :=
  (u.search.find? (fun p => p.1 == key)).map (fun p => p.2)

/-! ### YouTubeModule (youtube.url.module.ts) -/

/-- Embed payload returned by `getEmbedData` (interface `EmbedData`). -/
structure EmbedData where
  url : String
  html : Option String
  width : Option Nat
  height : Option Nat

namespace YouTubeModule

/-- Model of `pathname.match(/\/PAT\/([^/?]+)/)`: leftmost occurrence of the
literal `pat` followed by at least one character that is neither `/` nor `?`;
returns the captured group. -/
def matchSegAfter (pat : List Char) : List Char → Option (List Char)
  | [] => none
  | c :: rest =>
    if pat.isPrefixOf (c :: rest) then
      let cand := ((c :: rest).drop pat.length).takeWhile (fun ch => ch ≠ '/' && ch ≠ '?')
      if cand.isEmpty then matchSegAfter pat rest else some cand
    else matchSegAfter pat rest

/-- Source `YouTubeModule.extractVideoId`: extract a YouTube video id from the URL;
`none` models both the `return null` paths and the catch-all for a throwing
`URL` constructor. -/
def extractVideoId (url : String) : Option String :=
  match parseURL url with
  | none => none
  | some urlObj =>
    let hostname := toLowerStr urlObj.hostname
    if containsSub "youtu.be" hostname then
      match (splitOnChar '/' urlObj.pathname.toList).getD 1 [] with
      | [] => none
      | p => some (String.mk p)
    else if containsSub "youtube.com" hostname then
      let fromPath : Option String :=
        match matchSegAfter "/embed/".toList urlObj.pathname.toList with
        | some m => some (String.mk m)
        | none =>
          match matchSegAfter "/v/".toList urlObj.pathname.toList with
          | some m => some (String.mk m)
          | none => none
      match searchParamsGet urlObj "v" with
      | some vParam => if vParam = "" then fromPath else some vParam
      | none => fromPath
    else none

/-- The error message thrown by `process` and `getEmbedData`. -/
def invalidUrlMsg : String := "Invalid YouTube URL: Could not extract video ID"

/-- Source `YouTubeModule.process`: derive the playable (embed) URL; `Except.error`
models the thrown `Error`. -/
def process (url : String) : Except String String :=
  match extractVideoId url with
  | none => Except.error invalidUrlMsg
  | some videoId =>
    Except.ok ("https://www.youtube.com/embed/" ++ videoId ++ "?autoplay=1&enablejsapi=1")

/-- Source `YouTubeModule.generateEmbedHtml` (whitespace of the template normalised). -/
def generateEmbedHtml (videoId : String) : String :=
  "<iframe width=\"100%\" height=\"100%\" src=\"https://www.youtube.com/embed/" ++
    videoId ++ "?autoplay=1\" frameborder=\"0\" allowfullscreen></iframe>"

/-- Source `YouTubeModule.getEmbedData`. -/
def getEmbedData (url : String) : Except String EmbedData :=
  match extractVideoId url with
  | none => Except.error invalidUrlMsg
  | some videoId =>
    Except.ok { url := "https://www.youtube.com/embed/" ++ videoId ++ "?autoplay=1"
                html := some (generateEmbedHtml videoId)
                width := some 560
                height := some 315 }

end YouTubeModule

/-! ### PlatformModule interface and the PlatformModules registry -/

/-- The `PlatformModule` interface: capability record of a platform handler. -/
structure PlatformModule where
  name : String
  process : String → Except String String
  getEmbedData : String → Except String EmbedData
  extractVideoId : String → Option String

/-- The YouTube handler as a `PlatformModule` value. -/
def youtubeModule : PlatformModule :=
  { name := "YouTube"
    process := YouTubeModule.process
    getEmbedData := YouTubeModule.getEmbedData
    extractVideoId := YouTubeModule.extractVideoId }

namespace PlatformModules

/-- The `PlatformModules.modules` map after `initialize()`: only the YouTube
module is registered, under its lower-cased name. -/
def modulesAfterInit : List (String × PlatformModule) := [("youtube", youtubeModule)]

/-- Source `PlatformModules.getModule` (after auto-initialisation). -/
def getModule (platform : String) : Option PlatformModule :=
  alGet modulesAfterInit (toLowerStr platform)

end PlatformModules

/-! ### HybridConfig (hybrid.config.ts)

The registry is the static `platforms : Map<string, PlatformConfig>`, modelled
as an insertion-ordered association list keyed by the lower-cased platform
name.  A recognition pattern (`RegExp`) is modelled by its `test` function
`String → Bool`.  Default pattern generation (`generateDefaultPatterns`) is
not modelled: the claims quantify over arbitrary registered pattern sets, so
`registerPlatform` here takes the pattern list explicitly. -/

/-- Model of a `RegExp` by its `test` function on the URL string. -/
abbrev Pattern := String → Bool

/-- Source `PlatformConfig` (hybrid.config.ts). -/
structure PlatformConfig where
  name : String
  module : PlatformModule
  patterns : List Pattern
  enabled : Bool
  priority : Int

/-- The `HybridConfig.platforms` map: insertion-ordered entries keyed by the
lower-cased name. -/
abbrev Registry := List (String × PlatformConfig)

namespace HybridConfig

/-- Source `HybridConfig.defaultPriority`. -/
def defaultPriority : Int := 100

/-- In-place update of the entry stored under `key` (the `platforms.get(key)`
followed by field mutation pattern); no-op when the key is absent. -/
def mapUpdate (key : String) (f : PlatformConfig → PlatformConfig) :
    Registry → Registry
  | [] => []
  | (k, v) :: rest =>
    if k == key then (k, f v) :: rest else (k, v) :: mapUpdate key f rest

/-- Source `HybridConfig.registerPlatform` (with the pattern list given explicitly). -/
def registerPlatform (name : String) (module : PlatformModule)
    (patterns : List Pattern) (priority : Int) (reg : Registry) : Registry :=
  alSet reg (toLowerStr name)
    { name := name, module := module, patterns := patterns,
      enabled := true, priority := priority }

/-- Source `HybridConfig.matchesPatterns`: any one pattern tests true on the URL. -/
def matchesPatterns (url : String) (patterns : List Pattern) : Bool :=
  patterns.any (fun pattern => pattern url)

/-- One insertion step of the stable sort used by `detectPlatform`. -/
def insertByPriority (x : PlatformConfig) : List PlatformConfig → List PlatformConfig
  | [] => [x]
  | y :: ys =>
    if x.priority ≤ y.priority then x :: y :: ys else y :: insertByPriority x ys

/-- Model of `Array.prototype.sort` with comparator
`(a, b) => a.priority - b.priority`: a stable sort by ascending priority. -/
def sortByPriority : List PlatformConfig → List PlatformConfig
  | [] => []
  | x :: xs => insertByPriority x (sortByPriority xs)

/-- Source `HybridConfig.detectPlatform`: filter the registered entries to the
enabled ones, stable-sort by ascending priority, and return the first whose
pattern set matches the URL. -/
def detectPlatform (url : String) (reg : Registry) : Option PlatformConfig :=
  let sortedPlatforms := sortByPriority ((reg.map (fun kv => kv.2)).filter (fun p => p.enabled))
  sortedPlatforms.find? (fun platform => matchesPatterns url platform.patterns)

/-- Source `HybridConfig.getPlatform`. -/
def getPlatform (name : String) (reg : Registry) : Option PlatformConfig :=
  alGet reg (toLowerStr name)

/-- Source `HybridConfig.setPlatformEnabled`: mutate the `enabled` flag of the entry
stored under the lower-cased name; no-op when unknown. -/
def setPlatformEnabled (name : String) (enabled : Bool) (reg : Registry) : Registry :=
  mapUpdate (toLowerStr name) (fun platform => { platform with enabled := enabled }) reg

/-- Source `HybridConfig.setPlatformPriority`. -/
def setPlatformPriority (name : String) (priority : Int) (reg : Registry) : Registry :=
  mapUpdate (toLowerStr name) (fun platform => { platform with priority := priority }) reg

/-- Source `HybridConfig.addPlatformPattern`. -/
def addPlatformPattern (name : String) (pattern : Pattern) (reg : Registry) : Registry :=
  mapUpdate (toLowerStr name) (fun platform => { platform with patterns := platform.patterns ++ [pattern] }) reg

/-- Source `HybridConfig.getEnabledPlatforms`. -/
def getEnabledPlatforms (reg : Registry) : List PlatformConfig :=
  (reg.map (fun kv => kv.2)).filter (fun p => p.enabled)

/-! #### Event subscription

A listener's handler takes the event payload and may have effects and may
throw; it is modelled as a state transformer `α → σ → Except String σ`
(`Except.error` models a thrown exception). -/

/-- Source `EventListener` (hybrid.config.ts). -/
structure EvListener (α σ : Type) where
  event : String
  platform : String
  handler : α → σ → Except String σ

/-- The `HybridConfig.listeners` multi-map, keyed by `event ++ ":" ++ platform`. -/
abbrev ListenerMap (α σ : Type) := List (String × List (EvListener α σ))

/-- Source `HybridConfig.addEventListener`: append the listener to the key's list. -/
def addEventListener {α σ : Type} (event platform : String)
    (handler : α → σ → Except String σ) (m : ListenerMap α σ) : ListenerMap α σ :=
  let key := event ++ ":" ++ platform
  match alGet m key with
  | none => alSet m key [⟨event, platform, handler⟩]
  | some ls => alSet m key (ls ++ [⟨event, platform, handler⟩])

/-- The `listeners.forEach` loop of `emitEvent`: run each handler in order;
a throwing handler is caught and logged (`console.error`) and the loop
continues with the state it had before that handler. -/
def runListeners {α σ : Type} (key : String) (data : α) (s : σ) :
    List (EvListener α σ) → σ × List String
  | [] => (s, [])
  | l :: ls =>
    match l.handler data s with
    | Except.ok s2 => runListeners key data s2 ls
    | Except.error e =>
      let (s2, log) := runListeners key data s ls
      (s2, ("Error in event listener for " ++ key ++ ": " ++ e) :: log)

/-- Source `HybridConfig.emitEvent`: look up the key's listener list and run it.
The return type (final state plus console-error log, never an exception)
models that a subscriber failure does not propagate to the publisher. -/
def emitEvent {α σ : Type} (event platform : String) (data : α) (s : σ)
    (m : ListenerMap α σ) : σ × List String :=
  let key := event ++ ":" ++ platform
  match alGet m key with
  | none => (s, [])
  | some listeners => runListeners key data s listeners

end HybridConfig

/-! ### FileLinkReader (utils/filesLinkReader.ts)

The three readers share two host-regex models: the bare-URL token scan
(`/(https?:\/\/[^\s…]+)/g`), and trailing-punctuation stripping
(`.replace(/[.,;:!?)]+$/, '')`). -/

namespace FileLinkReader

/-- Source `FileLinkReader.isValidUrl`: the string parses as a URL with protocol
`http:` or `https:`. -/
def isValidUrl (url : String) : Bool :=
  match parseURL url with
  | none => false
  | some urlObj => urlObj.protocol == "http:" || urlObj.protocol == "https:"

/-- Model of `.replace(/[.,;:!?)]+$/, '')`: drop the trailing run of
sentence punctuation. -/
def stripTrailingPunct (s : String) : String :=
  String.mk ((s.toList.reverse.dropWhile
    (fun c => c = '.' || c = ',' || c = ';' || c = ':' || c = '!' || c = '?' || c = ')')).reverse)

/-- Try to match `https?:\/\/` at the head of `cs`; on success return the
number of scheme characters consumed. -/
def urlSchemeAt (cs : List Char) : Option Nat :=
  if ['h','t','t','p','s',':','/','/'].isPrefixOf cs then some 8
  else if ['h','t','t','p',':','/','/'].isPrefixOf cs then some 7
  else none

/-- Try to match `https?:\/\/[^…]+` (with `stop` the negated character
class) at the head of `cs`; on success, the matched token and the rest. -/
def urlTokenAt (stop : Char → Bool) (cs : List Char) : Option (String × List Char) :=
  match urlSchemeAt cs with
  | none => none
  | some n =>
    let body := (cs.drop n).takeWhile (fun c => !stop c)
    if body.isEmpty then none
    else some (String.mk (cs.take (n + body.length)), cs.drop (n + body.length))

/-- Fuelled global-regex scan for `https?:\/\/…` tokens: leftmost,
non-overlapping, resuming after each match (the `while (match = re.exec(s))`
loop). The fuel is an upper bound on the scan steps. -/
def scanUrlTokensFuel (stop : Char → Bool) : Nat → List Char → List String
  | 0, _ => []
  | _, [] => []
  | fuel + 1, c :: rest =>
    match urlTokenAt stop (c :: rest) with
    | some (tok, rem) => tok :: scanUrlTokensFuel stop fuel rem
    | none => scanUrlTokensFuel stop fuel rest

/-- All `https?:\/\/…` tokens of `s`, in document order. -/
def scanUrlTokens (stop : Char → Bool) (s : String) : List String :=
  scanUrlTokensFuel stop s.toList.length s.toList

/-- Model of one attempted match of `/\[([^\]]+)\]\(([^)]+)\)/` at the head
of the input: returns the second capture (the URL) and the rest. -/
def mdLinkAt (cs : List Char) : Option (String × List Char) :=
  match cs with
  | '[' :: rest =>
    let text := rest.takeWhile (fun c => c ≠ ']')
    if text.isEmpty then none
    else
      match rest.drop text.length with
      | ']' :: '(' :: rest2 =>
        let urlCs := rest2.takeWhile (fun c => c ≠ ')')
        if urlCs.isEmpty then none
        else
          match rest2.drop urlCs.length with
          | ')' :: rem => some (String.mk urlCs, rem)
          | _ => none
      | _ => none
  | _ => none

/-- Fuelled global scan for markdown `[text](url)` links. -/
def scanMdLinksFuel : Nat → List Char → List String
  | 0, _ => []
  | _, [] => []
  | fuel + 1, c :: rest =>
    match mdLinkAt (c :: rest) with
    | some (url, rem) => url :: scanMdLinksFuel fuel rem
    | none => scanMdLinksFuel fuel rest

/-- First pass of `readMarkdownUrls`: every `[text](url)` capture that is a
valid URL, in document order, pushed unconditionally. -/
def mdLinkPass (content : String) : List String :=
  (scanMdLinksFuel content.toList.length content.toList).filter isValidUrl

/-- The raw bare-URL tokens of the second pass of `readMarkdownUrls`
(`/(https?:\/\/[^\s\)]+)/g`). -/
def bareTokens (content : String) : List String :=
  scanUrlTokens (fun c => isJsSpace c || c = ')') content

/-- Second pass of `readMarkdownUrls`: strip trailing punctuation from each
bare token and append it only when valid and not already collected. -/
def bareFold (urls : List String) : List String → List String
  | [] => urls
  | t :: ts =>
    let url := stripTrailingPunct t
    if isValidUrl url && !urls.contains url then bareFold (urls ++ [url]) ts
    else bareFold urls ts

/-- Source `FileLinkReader.readMarkdownUrls`. -/
def readMarkdownUrls (content : String) : List String :=
  bareFold (mdLinkPass content) (bareTokens content)

/-- The body of the per-line loop of `readTextUrls`, threading the `urls`
accumulator. -/
def processTextLine (urls : List String) (line : String) : List String :=
  let trimmedLine := trimStr line
  if trimmedLine = "" || "#".toList.isPrefixOf trimmedLine.toList
      || "//".toList.isPrefixOf trimmedLine.toList then urls
  else if isValidUrl trimmedLine then urls ++ [trimmedLine]
  else
    urls ++ (scanUrlTokens isJsSpace trimmedLine).filterMap (fun t =>
      let url := stripTrailingPunct t
      if isValidUrl url then some url else none)

/-- Source `FileLinkReader.readTextUrls`. -/
def readTextUrls (content : String) : List String :=
  ((splitOnChar '\n' content.toList).map String.mk).foldl processTextLine []

end FileLinkReader

/-! ### Model of `JSON.parse` and `readJsonUrls`

`JSON.parse` is a host builtin; it is modelled by an executable
recursive-descent parser over a JSON value type.  A number is kept as its
integer part plus its fraction-digit lexeme (enough to decide JavaScript
truthiness); percent-encoding and duplicate object keys are kept as parsed. -/

/-- JSON values as produced by the `JSON.parse` model. -/
inductive JsValue where
  | null : JsValue
  | bool : Bool → JsValue
  | num : Int → List Char → JsValue
  | str : String → JsValue
  | arr : List JsValue → JsValue
  | obj : List (String × JsValue) → JsValue

/-- JSON insignificant whitespace. -/
def isJsonWs (c : Char) : Bool :=
  c = ' ' || c = '\t' || c = '\n' || c = '\r'

/-- Hex digit test. -/
def isHexDig (c : Char) : Bool :=
  c.isDigit || ('a' ≤ c ∧ c ≤ 'f') || ('A' ≤ c ∧ c ≤ 'F')

/-- Hex digit value. -/
def hexVal (c : Char) : Nat :=
  if c.isDigit then c.toNat - 48
  else if 'a' ≤ c ∧ c ≤ 'f' then c.toNat - 87
  else if 'A' ≤ c ∧ c ≤ 'F' then c.toNat - 55
  else 0

/-- Single-character JSON string escapes. -/
def jsonEscapeChar (c : Char) : Option Char :=
  if c = '"' then some '"'
  else if c = '\\' then some '\\'
  else if c = '/' then some '/'
  else if c = 'b' then some '\x08'
  else if c = 'f' then some '\x0c'
  else if c = 'n' then some '\n'
  else if c = 'r' then some '\r'
  else if c = 't' then some '\t'
  else none

/-- Parse the body of a JSON string after the opening quote: the decoded
characters and the rest of the input after the closing quote. -/
def parseJsStringBody : List Char → Option (List Char × List Char)
  | [] => none
  | '"' :: rest => some ([], rest)
  | '\\' :: 'u' :: h1 :: h2 :: h3 :: h4 :: rest =>
    if isHexDig h1 && isHexDig h2 && isHexDig h3 && isHexDig h4 then
      match parseJsStringBody rest with
      | some (s, rem) =>
        some (Char.ofNat (hexVal h1 * 4096 + hexVal h2 * 256 + hexVal h3 * 16 + hexVal h4) :: s, rem)
      | none => none
    else none
  | '\\' :: e :: rest =>
    if e = 'u' then none
    else
      match jsonEscapeChar e with
      | none => none
      | some c =>
        match parseJsStringBody rest with
        | some (s, rem) => some (c :: s, rem)
        | none => none
  | c :: rest =>
    if c.toNat < 32 then none
    else
      match parseJsStringBody rest with
      | some (s, rem) => some (c :: s, rem)
      | none => none

/-- Digits to a natural number. -/
def digitsToNat (ds : List Char) : Nat :=
  ds.foldl (fun a c => a * 10 + (c.toNat - 48)) 0

/-- Parse a JSON number at the head of the input. -/
def parseJsNumber (cs : List Char) : Option (JsValue × List Char) :=
  let signed := match cs with | '-' :: r => (true, r) | _ => (false, cs)
  let neg := signed.1
  let cs1 := signed.2
  let intDigits := cs1.takeWhile Char.isDigit
  if intDigits.isEmpty then none
  else if intDigits.length > 1 && intDigits.headD '0' = '0' then none
  else
    let rest1 := cs1.drop intDigits.length
    let fracSplit :=
      match rest1 with
      | '.' :: r =>
        let ds := r.takeWhile Char.isDigit
        if ds.isEmpty then none else some (ds, r.drop ds.length)
      | _ => some ([], rest1)
    match fracSplit with
    | none => none
    | some (fracDigits, rest2) =>
      let iv : Int := if neg then -(digitsToNat intDigits : Int) else (digitsToNat intDigits : Int)
      match rest2 with
      | 'e' :: r3 =>
        let r4 := match r3 with | '+' :: r => r | '-' :: r => r | _ => r3
        let eds := r4.takeWhile Char.isDigit
        if eds.isEmpty then none else some (JsValue.num iv fracDigits, r4.drop eds.length)
      | 'E' :: r3 =>
        let r4 := match r3 with | '+' :: r => r | '-' :: r => r | _ => r3
        let eds := r4.takeWhile Char.isDigit
        if eds.isEmpty then none else some (JsValue.num iv fracDigits, r4.drop eds.length)
      | _ => some (JsValue.num iv fracDigits, rest2)

mutual

/-- Parse one JSON value (leading whitespace allowed). -/
def parseJsValue : Nat → List Char → Option (JsValue × List Char)
  | 0, _ => none
  | fuel + 1, cs =>
    match cs.dropWhile isJsonWs with
    | [] => none
    | 'n' :: rest =>
      if ['u','l','l'].isPrefixOf rest then some (JsValue.null, rest.drop 3) else none
    | 't' :: rest =>
      if ['r','u','e'].isPrefixOf rest then some (JsValue.bool true, rest.drop 3) else none
    | 'f' :: rest =>
      if ['a','l','s','e'].isPrefixOf rest then some (JsValue.bool false, rest.drop 4) else none
    | '"' :: rest =>
      match parseJsStringBody rest with
      | some (s, rem) => some (JsValue.str (String.mk s), rem)
      | none => none
    | '[' :: rest =>
      (match (rest.dropWhile isJsonWs) with
       | ']' :: rem => some (JsValue.arr [], rem)
       | other =>
         match parseJsArrayTail fuel other with
         | some (vs, rem) => some (JsValue.arr vs, rem)
         | none => none)
    | '{' :: rest =>
      (match (rest.dropWhile isJsonWs) with
       | '}' :: rem => some (JsValue.obj [], rem)
       | other =>
         match parseJsObjTail fuel other with
         | some (fields, rem) => some (JsValue.obj fields, rem)
         | none => none)
    | c :: rest =>
      if c = '-' || c.isDigit then parseJsNumber (c :: rest) else none

/-- Parse the elements of a non-empty JSON array (value, then `,` more or `]`). -/
def parseJsArrayTail : Nat → List Char → Option (List JsValue × List Char)
  | 0, _ => none
  | fuel + 1, cs =>
    match parseJsValue fuel cs with
    | none => none
    | some (v, rem) =>
      match rem.dropWhile isJsonWs with
      | ',' :: rest =>
        (match parseJsArrayTail fuel rest with
         | some (vs, rem2) => some (v :: vs, rem2)
         | none => none)
      | ']' :: rest => some ([v], rest)
      | _ => none

/-- Parse the members of a non-empty JSON object. -/
def parseJsObjTail : Nat → List Char → Option (List (String × JsValue) × List Char)
  | 0, _ => none
  | fuel + 1, cs =>
    match cs.dropWhile isJsonWs with
    | '"' :: rest =>
      (match parseJsStringBody rest with
       | none => none
       | some (k, rem) =>
         match rem.dropWhile isJsonWs with
         | ':' :: rest2 =>
           (match parseJsValue fuel rest2 with
            | none => none
            | some (v, rem2) =>
              match rem2.dropWhile isJsonWs with
              | ',' :: rest3 =>
                (match parseJsObjTail fuel rest3 with
                 | some (fields, rem3) => some ((String.mk k, v) :: fields, rem3)
                 | none => none)
              | '}' :: rest3 => some ([(String.mk k, v)], rest3)
              | _ => none)
         | _ => none)
    | _ => none

end

/-- Model of `JSON.parse`: `none` models the thrown `SyntaxError`. -/
def jsonParse (content : String) : Option JsValue :=
  let cs := content.toList
  match parseJsValue (2 * cs.length + 2) cs with
  | some (v, rem) => if (rem.dropWhile isJsonWs).isEmpty then some v else none
  | none => none

/-- JavaScript truthiness of a JSON value. -/
def jsTruthy : JsValue → Bool
  | JsValue.null => false
  | JsValue.bool b => b
  | JsValue.num i frac => !(i == 0 && frac.all (fun c => c = '0'))
  | JsValue.str s => s ≠ ""
  | JsValue.arr _ => true
  | JsValue.obj _ => true

namespace FileLinkReader

/-- Source `data.filter(item => typeof item === 'string' && this.isValidUrl(item))`. -/
def filterStringUrls (items : List JsValue) : List String :=
  items.filterMap (fun item =>
    match item with
    | JsValue.str s => if isValidUrl s then some s else none
    | _ => none)

mutual

/-- Body of the `for (const key in obj)` loop of `extractUrlsFromObject`,
applied to each iterated value in key order. -/
def walkLoopBody : JsValue → List String
  | JsValue.str s => if isValidUrl s then [s] else []
  | JsValue.arr items => walkForEachItems items
  | JsValue.obj fields => walkPairs fields
  | _ => []

/-- The `for … in` loop over an object's fields. -/
def walkPairs : List (String × JsValue) → List String
  | [] => []
  | (_, value) :: rest => walkLoopBody value ++ walkPairs rest

/-- The `value.forEach(item => …)` loop of the array branch: a string item
is pushed when valid; an item of type `object` (object, array, or `null`)
is recursed into. -/
def walkForEachItems : List JsValue → List String
  | [] => []
  | item :: rest => walkItemBody item ++ walkForEachItems rest

/-- Body of `value.forEach`: the recursion `extractUrlsFromObject(item)`
iterates an object's fields, an array's elements in index order, and
nothing for `null`. -/
def walkItemBody : JsValue → List String
  | JsValue.str s => if isValidUrl s then [s] else []
  | JsValue.obj fields => walkPairs fields
  | JsValue.arr items => walkValues items
  | _ => []

/-- Source `for … in` over an array iterates its elements in index order. -/
def walkValues : List JsValue → List String
  | [] => []
  | v :: rest => walkLoopBody v ++ walkValues rest

end

/-- Source `FileLinkReader.extractUrlsFromObject` (accumulator made explicit as the
returned list, in push order). -/
def extractUrlsFromObject : JsValue → List String
  | JsValue.obj fields => walkPairs fields
  | JsValue.arr items => walkValues items
  | _ => []

/-- Source `data.urls || data.videos || data.links || []`. -/
def urlsProperty (fields : List (String × JsValue)) : JsValue :=
  let pick := fun (k : String) =>
    match alGet fields k with
    | some v => if jsTruthy v then some v else none
    | none => none
  match pick "urls" with
  | some v => v
  | none =>
    match pick "videos" with
    | some v => v
    | none =>
      match pick "links" with
      | some v => v
      | none => JsValue.arr []

/-- Source `FileLinkReader.readJsonUrls`: parse the content (a parse failure is the
caught exception and yields `[]`); handle a top-level array, the
`urls`/`videos`/`links` property, or the recursive walk.  A top-level `null`
reaches `data.urls`, which throws and is caught, yielding `[]`; other
primitives fall through to `return []`. -/
def readJsonUrls (content : String) : List String :=
  match jsonParse content with
  | none => []
  | some data =>
    match data with
    | JsValue.arr items => filterStringUrls items
    | JsValue.obj fields =>
      (match urlsProperty fields with
       | JsValue.arr items => filterStringUrls items
       | _ => extractUrlsFromObject (JsValue.obj fields))
    | _ => []

end FileLinkReader

/-! ### LinkProcessor (links.processors.ts) -/

namespace LinkProcessor

/-- Source `LinkProcessor.cleanUrl`: strip trailing punctuation, then trim. -/
def cleanUrl (url : String) : String :=
  trimStr (FileLinkReader.stripTrailingPunct url)

/-- The fixed allow-list of video platforms in `isValidVideoUrl`. -/
def videoPlatforms : List String :=
  ["youtube.com", "youtu.be", "facebook.com", "fb.watch", "instagram.com",
   "vimeo.com", "tiktok.com", "twitch.tv", "dailymotion.com",
   "streamable.com", "video"]

/-- Model of `pathname.match(/\.(mp4|webm|ogg|mov|avi|mkv)$/i) !== null`. -/
def pathHasVideoExt (pathname : String) : Bool :=
  let p := (toLowerStr pathname).toList
  [".mp4", ".webm", ".ogg", ".mov", ".avi", ".mkv"].any
    (fun ext => ext.toList.isSuffixOf p)

/-- Source `LinkProcessor.isValidVideoUrl`. -/
def isValidVideoUrl (url : String) : Bool :=
  match parseURL url with
  | none => false
  | some urlObj =>
    let hostname := toLowerStr urlObj.hostname
    videoPlatforms.any (fun platform => containsSub platform hostname)
      || pathHasVideoExt urlObj.pathname

/-- Source `LinkProcessor.extractUrlsFromText`: the no-hint fallback scan. -/
def extractUrlsFromText (text : String) : List String :=
  ((FileLinkReader.scanUrlTokens isJsSpace text).map cleanUrl).filter isValidVideoUrl

/-- Source `LinkProcessor.getFileExtension`: model of `fileName.match(/\.[^.]+$/)`,
lower-cased. -/
def getFileExtension (fileName : String) : String :=
  let cs := fileName.toList
  let revTail := cs.reverse.takeWhile (fun c => c ≠ '.')
  if revTail.length = cs.length then ""
  else if revTail.isEmpty then ""
  else toLowerStr (String.mk ('.' :: revTail.reverse))

/-- Source `LinkProcessor.extractUrls`: dispatch on the file extension. -/
def extractUrls (content fileName : String) : List String :=
  match getFileExtension fileName with
  | ".json" => FileLinkReader.readJsonUrls content
  | ".md" => FileLinkReader.readMarkdownUrls content
  | ".txt" => FileLinkReader.readTextUrls content
  | _ => extractUrlsFromText content

/-- Source `LinkProcessor.validateUrl`. -/
def validateUrl (url : String) : Bool :=
  (parseURL url).isSome

/-- Source `LinkProcessor.detectPlatform`: the hostname-keyword chain; `none`
models the catch branch (`return null`) for a throwing URL constructor. -/
def detectPlatform (url : String) : Option String :=
  match parseURL url with
  | none => none
  | some urlObj =>
    let hostname := toLowerStr urlObj.hostname
    if containsSub "youtube.com" hostname || containsSub "youtu.be" hostname then some "YouTube"
    else if containsSub "facebook.com" hostname || containsSub "fb.watch" hostname then some "Facebook"
    else if containsSub "instagram.com" hostname then some "Instagram"
    else if containsSub "vimeo.com" hostname then some "Vimeo"
    else if containsSub "tiktok.com" hostname then some "TikTok"
    else if containsSub "twitch.tv" hostname then some "Twitch"
    else if containsSub "dailymotion.com" hostname then some "Dailymotion"
    else some "Generic"

end LinkProcessor

/-! ### LinkDeployerCore (link.core.deployer.dev.ts)

The deployer is modelled as a transformer of an explicit world state.  The
world carries the deployer's own fields (`currentUrl`, `selectedFile`) and
the observables of its collaborators:

* `playlists`   — the closures attached by `setupVideoPlaylist` as `'ended'`
  listeners on the stage video element, in attachment order, each with its
  own mutable `currentIndex`;
* `stageCalls`  — the URLs passed to `deployToVideoStage`, in call order;
* `videoSrc`    — the stage source element's `src` (set only when a module
  is found and its `process` succeeds);
* `embedCalls`/`embedWindows` — the same for `deployToEmbed`;
* `onDeployLog` — the `DeployerData` payloads reported to `config.onDeploy`.

`fireEnded` models the stage video element dispatching one `'ended'` event
to every attached listener in attachment order. -/

namespace LinkDeployerCore

/-- Source `DeployMode`. -/
inductive DeployMode where
  | embed : DeployMode
  | videoStage : DeployMode
deriving DecidableEq

/-- Source `DeployerData` (the `file`/`fileContent` fields model the selected file
by name and content). -/
structure DeployerData where
  type : String
  mode : DeployMode
  url : Option String
  file : Option String
  fileContent : Option String
  urls : Option (List String)
  platform : Option String
deriving DecidableEq

/-- The closure state captured by one `setupVideoPlaylist` call. -/
structure Playlist where
  urls : List String
  currentIndex : Nat
deriving DecidableEq

/-- The deployer plus its observable collaborators. -/
structure World where
  currentUrl : String
  selectedFile : Option (String × String)
  playlists : List Playlist
  stageCalls : List String
  videoSrc : Option String
  embedCalls : List String
  embedWindows : List EmbedData
  onDeployLog : List DeployerData

/-- The initial world: fresh deployer, nothing attached or deployed. -/
def initWorld : World :=
  { currentUrl := "", selectedFile := none, playlists := [], stageCalls := [],
    videoSrc := none, embedCalls := [], embedWindows := [], onDeployLog := [] }

/-- Source `LinkDeployerCore.validateUrl`. -/
def validateUrl (url : String) : Bool :=
  if trimStr url = "" then false else (parseURL url).isSome

/-- Source `LinkDeployerCore.detectPlatform` (same chain as the processor's). -/
def detectPlatform (url : String) : Option String :=
  match parseURL url with
  | none => none
  | some urlObj =>
    let hostname := toLowerStr urlObj.hostname
    if containsSub "youtube.com" hostname || containsSub "youtu.be" hostname then some "YouTube"
    else if containsSub "facebook.com" hostname || containsSub "fb.watch" hostname then some "Facebook"
    else if containsSub "instagram.com" hostname then some "Instagram"
    else if containsSub "vimeo.com" hostname then some "Vimeo"
    else if containsSub "tiktok.com" hostname then some "TikTok"
    else if containsSub "twitch.tv" hostname then some "Twitch"
    else if containsSub "dailymotion.com" hostname then some "Dailymotion"
    else some "Generic"

/-- Source `setCurrentUrl`. -/
def setCurrentUrl (url : String) (w : World) : World :=
  { w with currentUrl := url }

/-- Source `setSelectedFile` (the file is carried with its readable content). -/
def setSelectedFile (file : Option (String × String)) (w : World) : World :=
  { w with selectedFile := file }

/-- Source `canDeploy`: a current URL or a selected file is set. -/
def canDeploy (w : World) : Bool :=
  !(w.currentUrl == "") || w.selectedFile.isSome

/-- Source `reset`. -/
def reset (w : World) : World :=
  { w with currentUrl := "", selectedFile := none }

/-- Source `deployToVideoStage`: look up the platform module (`'Generic'` when the
platform is `null`) and, when found and `process` succeeds, set the stage
source.  The call itself is recorded in `stageCalls`. -/
def deployToVideoStage (url : String) (platform : Option String) (w : World) : World :=
  let videoSrc :=
    match PlatformModules.getModule (platform.getD "Generic") with
    | none => w.videoSrc
    | some module =>
      match module.process url with
      | Except.ok playableUrl => some playableUrl
      | Except.error _ => w.videoSrc
  { w with stageCalls := w.stageCalls ++ [url], videoSrc := videoSrc }

/-- Source `deployToEmbed`: look up the module and, when found and `getEmbedData`
succeeds, open an embed window with the payload. -/
def deployToEmbed (url : String) (platform : Option String) (w : World) : World :=
  let embedWindows :=
    match PlatformModules.getModule (platform.getD "Generic") with
    | none => w.embedWindows
    | some module =>
      match module.getEmbedData url with
      | Except.ok embedData => w.embedWindows ++ [embedData]
      | Except.error _ => w.embedWindows
  { w with embedCalls := w.embedCalls ++ [url], embedWindows := embedWindows }

/-- Source `deploySingleUrl`: deploy to the requested surface, then report the
`DeployerData` to `config.onDeploy`. -/
def deploySingleUrl (url : String) (mode : DeployMode) (platform : Option String)
    (w : World) : World :=
  let deployerData : DeployerData :=
    { type := "url", mode := mode, url := some url, file := none,
      fileContent := none, urls := none, platform := some (platform.getD "Generic") }
  let w2 :=
    match mode with
    | DeployMode.videoStage => deployToVideoStage url platform w
    | DeployMode.embed => deployToEmbed url platform w
  { w2 with onDeployLog := w2.onDeployLog ++ [deployerData] }

/-- Source `setupVideoPlaylist`: attach a fresh `playNext` closure (over the batch
and index 0) as an `'ended'` listener on the stage video element. -/
def setupVideoPlaylist (urls : List String) (w : World) : World :=
  { w with playlists := w.playlists ++ [{ urls := urls, currentIndex := 0 }] }

/-- Source `deployMultipleToVideoStage`: deploy item 0 immediately; when the batch
has more than one entry, set up the playlist observer. -/
def deployMultipleToVideoStage (urls : List String) (w : World) : World :=
  let w2 :=
    match urls with
    | [] => w
    | u0 :: _ => deployToVideoStage u0 (detectPlatform u0) w
  if urls.length > 1 then setupVideoPlaylist urls w2 else w2

/-- Source `deployMultipleToEmbed`: only the first batch item is deployed. -/
def deployMultipleToEmbed (urls : List String) (w : World) : World :=
  match urls with
  | [] => w
  | u0 :: _ => deployToEmbed u0 (detectPlatform u0) w

/-- Source `deployFromFile`: read the file content, extract the URLs, deploy them
when non-empty, and report the `DeployerData`. -/
def deployFromFile (fileName fileContent : String) (mode : DeployMode) (w : World) : World :=
  let urls := LinkProcessor.extractUrls fileContent fileName
  let deployerData : DeployerData :=
    { type := "file", mode := mode, url := none, file := some fileName,
      fileContent := some fileContent, urls := some urls, platform := none }
  let w2 :=
    if urls.length > 0 then
      match mode with
      | DeployMode.videoStage => deployMultipleToVideoStage urls w
      | DeployMode.embed => deployMultipleToEmbed urls w
    else w
  { w2 with onDeployLog := w2.onDeployLog ++ [deployerData] }

/-- Source `handleDeploy`: single-URL path when `currentUrl` is truthy, else the
file path when a file is selected, else nothing. -/
def handleDeploy (mode : DeployMode) (w : World) : World :=
  if w.currentUrl ≠ "" then
    deploySingleUrl w.currentUrl mode (detectPlatform w.currentUrl) w
  else
    match w.selectedFile with
    | some (fileName, fileContent) => deployFromFile fileName fileContent mode w
    | none => w

/-- The `playNext` closure of `setupVideoPlaylist`: advance this playlist's
index and, while in range, deploy the next URL to the stage. -/
def playNext (p : Playlist) (w : World) : Playlist × World :=
  let currentIndex := p.currentIndex + 1
  if h : currentIndex < p.urls.length then
    let nextUrl := p.urls.get ⟨currentIndex, h⟩
    ({ p with currentIndex := currentIndex },
     deployToVideoStage nextUrl (detectPlatform nextUrl) w)
  else ({ p with currentIndex := currentIndex }, w)

/-- One `'ended'` event on the stage video element: every attached listener
runs, in attachment order. -/
def fireEnded (w : World) : World :=
  let step := fun (acc : List Playlist × World) (p : Playlist) =>
    let r := playNext p acc.2
    (acc.1 ++ [r.1], r.2)
  let result := w.playlists.foldl step ([], w)
  { result.2 with playlists := result.1 }

end LinkDeployerCore

/-! ### Theorems

Helper definitions and lemmas for the resolution-order proof (C2), followed
by one theorem per claim. -/

namespace HybridConfig

/-- Spec-side reference resolution, transcribing the claim: among the
registered entries, the candidates are the enabled ones any of whose
patterns matches the URL; return the first candidate, in registration
order, whose priority value is less than or equal to every candidate's
(lower priority value wins, ties go to the earlier-registered entry). -/
def detectPlatformSpec (url : String) (reg : Registry) : Option PlatformConfig :=
  let candidates := (reg.map (fun kv => kv.2)).filter
    (fun p => p.enabled && matchesPatterns url p.patterns)
  candidates.find? (fun p => candidates.all (fun q => decide (p.priority ≤ q.priority)))

/-- Keep whichever of an accumulator and a later element has the strictly
smaller priority (the later element wins only strictly, so the earliest
minimal element survives). -/
def pickBetter (a b : PlatformConfig) : PlatformConfig :=
  if b.priority < a.priority then b else a

/-- The earliest element of minimal priority, if any. -/
def firstMin : List PlatformConfig → Option PlatformConfig
  | [] => none
  | x :: xs => some (xs.foldl pickBetter x)

theorem find_congr_mem {α : Type} (l : List α) (p q : α → Bool)
    (h : ∀ a ∈ l, p a = q a) : l.find? p = l.find? q := by
  induction l with
  | nil => rfl
  | cons a l ih =>
    have ha := h a (List.mem_cons_self a l)
    by_cases hp : p a = true
    · rw [List.find?_cons_of_pos _ hp, List.find?_cons_of_pos _ (ha ▸ hp)]
    · have hp2 : p a = false := by
        cases hpa : p a
        · rfl
        · exact absurd hpa hp
      rw [List.find?_cons_of_neg _ (by simp [hp2]), List.find?_cons_of_neg _ (by simp [ha ▸ hp2])]
      exact ih (fun a ha2 => h a (List.mem_cons_of_mem _ ha2))

theorem foldl_pickBetter_id (cs : List PlatformConfig) :
    ∀ acc, (∀ z ∈ cs, ¬ z.priority < acc.priority) →
      cs.foldl pickBetter acc = acc := by
  induction cs with
  | nil => intro acc _; rfl
  | cons z cs ih =>
    intro acc h
    have hz : pickBetter acc z = acc := by
      unfold pickBetter
      rw [if_neg (h z (List.mem_cons_self z cs))]
    rw [List.foldl_cons, hz]
    exact ih acc (fun r hr => h r (List.mem_cons_of_mem _ hr))

theorem foldl_pickBetter_acc (cs : List PlatformConfig) :
    ∀ a b, (∃ r ∈ cs, r.priority < a.priority ∧ r.priority < b.priority) →
      cs.foldl pickBetter a = cs.foldl pickBetter b := by
  induction cs with
  | nil => intro a b h; obtain ⟨r, hr, _⟩ := h; exact absurd hr (List.not_mem_nil r)
  | cons w cs ih =>
    intro a b h
    obtain ⟨r, hr, hra, hrb⟩ := h
    rw [List.foldl_cons, List.foldl_cons]
    by_cases hwa : w.priority < a.priority
    · by_cases hwb : w.priority < b.priority
      · rw [show pickBetter a w = w from if_pos hwa, show pickBetter b w = w from if_pos hwb]
      · rw [show pickBetter a w = w from if_pos hwa, show pickBetter b w = b from if_neg hwb]
        have hrw : r.priority < w.priority := lt_of_lt_of_le hrb (le_of_not_lt hwb)
        have hrcs : r ∈ cs := by
          rcases List.mem_cons.mp hr with h1 | h1
          · exact absurd (h1 ▸ hrw) (lt_irrefl _)
          · exact h1
        exact ih w b ⟨r, hrcs, hrw, hrb⟩
    · by_cases hwb : w.priority < b.priority
      · rw [show pickBetter a w = a from if_neg hwa, show pickBetter b w = w from if_pos hwb]
        have hrw : r.priority < w.priority := lt_of_lt_of_le hra (le_of_not_lt hwa)
        have hrcs : r ∈ cs := by
          rcases List.mem_cons.mp hr with h1 | h1
          · exact absurd (h1 ▸ hrw) (lt_irrefl _)
          · exact h1
        exact ih a w ⟨r, hrcs, hra, hrw⟩
      · rw [show pickBetter a w = a from if_neg hwa, show pickBetter b w = b from if_neg hwb]
        have hrcs : r ∈ cs := by
          rcases List.mem_cons.mp hr with h1 | h1
          · exact absurd (h1 ▸ hra) hwa
          · exact h1
        exact ih a b ⟨r, hrcs, hra, hrb⟩

theorem foldl_pickBetter_filter (cs : List PlatformConfig) :
    ∀ (acc : PlatformConfig) (bnd : Int), acc.priority < bnd →
      (cs.filter (fun y => decide (y.priority < bnd))).foldl pickBetter acc
        = cs.foldl pickBetter acc := by
  induction cs with
  | nil => intro acc bnd _; rfl
  | cons z cs ih =>
    intro acc bnd hacc
    by_cases hz : z.priority < bnd
    · rw [List.filter_cons_of_pos (by simpa using hz), List.foldl_cons, List.foldl_cons]
      have : (pickBetter acc z).priority < bnd := by
        unfold pickBetter
        by_cases hza : z.priority < acc.priority
        · rw [if_pos hza]; exact hz
        · rw [if_neg hza]; exact hacc
      exact ih (pickBetter acc z) bnd this
    · rw [List.filter_cons_of_neg (by simpa using hz)]
      have hpz : pickBetter acc z = acc := by
        unfold pickBetter
        exact if_neg (fun hlt => hz (lt_trans hlt hacc))
      rw [List.foldl_cons, hpz]
      exact ih acc bnd hacc

theorem firstMin_filter_lt (x : PlatformConfig) (cs : List PlatformConfig) :
    (match firstMin (cs.filter (fun y => decide (y.priority < x.priority))) with
     | some y => some y
     | none => some x) = some (cs.foldl pickBetter x) := by
  induction cs with
  | nil => rfl
  | cons z cs ih =>
    by_cases hz : z.priority < x.priority
    · rw [List.filter_cons_of_pos (by simpa using hz)]
      have hpz : pickBetter x z = z := if_pos hz
      rw [List.foldl_cons, hpz]
      show some ((cs.filter (fun y => decide (y.priority < x.priority))).foldl pickBetter z)
        = some (cs.foldl pickBetter z)
      rw [foldl_pickBetter_filter cs z x.priority hz]
    · rw [List.filter_cons_of_neg (by simpa using hz)]
      have hpz : pickBetter x z = x := if_neg hz
      rw [List.foldl_cons, hpz]
      exact ih

theorem find_insertByPriority_skip (x : PlatformConfig) (s : List PlatformConfig)
    (q : PlatformConfig → Bool) (hq : q x = false) :
    (insertByPriority x s).find? q = s.find? q := by
  induction s with
  | nil => simp [insertByPriority, List.find?, hq]
  | cons y ys ih =>
    unfold insertByPriority
    by_cases hxy : x.priority ≤ y.priority
    · rw [if_pos hxy]
      rw [List.find?_cons_of_neg _ (by simp [hq])]
    · rw [if_neg hxy]
      by_cases hy : q y = true
      · rw [List.find?_cons_of_pos _ hy, List.find?_cons_of_pos _ hy]
      · have hy2 : q y = false := by simpa using hy
        rw [List.find?_cons_of_neg _ (by simp [hy2]), List.find?_cons_of_neg _ (by simp [hy2])]
        exact ih

/-- Priority order used for sortedness of `sortByPriority`. -/
def PrioLE (a b : PlatformConfig) : Prop := a.priority ≤ b.priority

theorem mem_insertByPriority (x a : PlatformConfig) (s : List PlatformConfig) :
    a ∈ insertByPriority x s ↔ a = x ∨ a ∈ s := by
  induction s with
  | nil => simp [insertByPriority]
  | cons y ys ih =>
    unfold insertByPriority
    by_cases hxy : x.priority ≤ y.priority
    · rw [if_pos hxy]
      simp [List.mem_cons]
    · rw [if_neg hxy]
      simp only [List.mem_cons, ih]
      tauto

theorem pairwise_insertByPriority (x : PlatformConfig) (s : List PlatformConfig)
    (hs : s.Pairwise PrioLE) : (insertByPriority x s).Pairwise PrioLE := by
  induction s with
  | nil => simp [insertByPriority, PrioLE]
  | cons y ys ih =>
    rcases List.pairwise_cons.mp hs with ⟨hy, hys⟩
    unfold insertByPriority
    by_cases hxy : x.priority ≤ y.priority
    · rw [if_pos hxy]
      refine List.pairwise_cons.mpr ⟨?_, hs⟩
      intro z hz
      rcases List.mem_cons.mp hz with h1 | h1
      · exact h1 ▸ hxy
      · exact le_trans hxy (hy z h1)
    · rw [if_neg hxy]
      refine List.pairwise_cons.mpr ⟨?_, ih hys⟩
      intro z hz
      rcases (mem_insertByPriority x z ys).mp hz with h1 | h1
      · exact h1 ▸ (le_of_lt (lt_of_not_le hxy))
      · exact hy z h1

theorem pairwise_sortByPriority (l : List PlatformConfig) :
    (sortByPriority l).Pairwise PrioLE := by
  induction l with
  | nil => exact List.Pairwise.nil
  | cons x xs ih => exact pairwise_insertByPriority x (sortByPriority xs) ih

theorem find_insertByPriority_pos (q : PlatformConfig → Bool) (x : PlatformConfig)
    (s : List PlatformConfig) (hs : s.Pairwise PrioLE) (hq : q x = true) :
    (insertByPriority x s).find? q
      = match s.find? (fun y => q y && decide (y.priority < x.priority)) with
        | some y => some y
        | none => some x := by
  induction s with
  | nil => simp [insertByPriority, List.find?, hq]
  | cons y ys ih =>
    rcases List.pairwise_cons.mp hs with ⟨hy, hys⟩
    unfold insertByPriority
    by_cases hxy : x.priority ≤ y.priority
    · rw [if_pos hxy]
      have hnone : (y :: ys).find? (fun z => q z && decide (z.priority < x.priority)) = none := by
        rw [List.find?_eq_none]
        intro z hz
        have hzp : ¬ z.priority < x.priority := by
          rcases List.mem_cons.mp hz with h1 | h1
          · exact h1 ▸ (not_lt_of_le hxy)
          · exact not_lt_of_le (le_trans hxy (hy z h1))
        simp [hzp]
      rw [hnone, List.find?_cons_of_pos _ hq]
    · rw [if_neg hxy]
      by_cases hqy : q y = true
      · have hlt : decide (y.priority < x.priority) = true := by
          simp [lt_of_not_le hxy]
        simp only [List.find?_cons, hqy, Bool.true_and, hlt]
      · have hqy2 : q y = false := by simpa using hqy
        have hz : (q y && decide (y.priority < x.priority)) = false := by simp [hqy2]
        simp only [List.find?_cons, hqy2, hz]
        exact ih hys

theorem find_sortByPriority (q : PlatformConfig → Bool) (l : List PlatformConfig) :
    (sortByPriority l).find? q = firstMin (l.filter q) := by
  induction l generalizing q with
  | nil => rfl
  | cons x xs ih =>
    show (insertByPriority x (sortByPriority xs)).find? q = firstMin ((x :: xs).filter q)
    by_cases hq : q x = true
    · rw [find_insertByPriority_pos q x (sortByPriority xs) (pairwise_sortByPriority xs) hq]
      rw [ih (fun y => q y && decide (y.priority < x.priority))]
      have hff : xs.filter (fun y => q y && decide (y.priority < x.priority))
          = (xs.filter q).filter (fun y => decide (y.priority < x.priority)) := by
        rw [List.filter_filter]
        exact List.filter_congr (fun a _ => by rw [Bool.and_comm])
      rw [hff, List.filter_cons_of_pos (by simp [hq])]
      show (match firstMin ((xs.filter q).filter (fun y => decide (y.priority < x.priority))) with
            | some y => some y
            | none => some x) = firstMin (x :: xs.filter q)
      rw [firstMin_filter_lt x (xs.filter q)]
      rfl
    · have hq2 : q x = false := by simpa using hq
      rw [find_insertByPriority_skip x (sortByPriority xs) q hq2, ih q,
        List.filter_cons_of_neg (by simp [hq2])]

theorem find_all_le_eq_firstMin (c : List PlatformConfig) :
    c.find? (fun p => c.all (fun q => decide (p.priority ≤ q.priority))) = firstMin c := by
  induction c with
  | nil => rfl
  | cons x cs ih =>
    by_cases hall : ∀ r ∈ cs, x.priority ≤ r.priority
    · have hx : ((x :: cs).all (fun q => decide (x.priority ≤ q.priority))) = true := by
        rw [List.all_eq_true]
        intro r hr
        rcases List.mem_cons.mp hr with h1 | h1
        · simp [h1]
        · simp [hall r h1]
      simp only [List.find?_cons, hx]
      show some x = firstMin (x :: cs)
      simp only [firstMin]
      rw [foldl_pickBetter_id cs x (fun z hz => not_lt_of_le (hall z hz))]
    · push_neg at hall
      obtain ⟨r, hr, hrx⟩ := hall
      have hx : ((x :: cs).all (fun q => decide (x.priority ≤ q.priority))) = false := by
        rw [List.all_eq_false]
        exact ⟨r, List.mem_cons_of_mem _ hr, by simpa using hrx⟩
      simp only [List.find?_cons, hx]
      have hcong : cs.find? (fun p => (x :: cs).all (fun q => decide (p.priority ≤ q.priority)))
          = cs.find? (fun p => cs.all (fun q => decide (p.priority ≤ q.priority))) := by
        apply find_congr_mem
        intro a _
        by_cases hacs : cs.all (fun q => decide (a.priority ≤ q.priority)) = true
        · have hax : a.priority ≤ x.priority := by
            have := List.all_eq_true.mp hacs r hr
            have har : a.priority ≤ r.priority := by simpa using this
            exact le_of_lt (lt_of_le_of_lt har hrx)
          simp only [List.all_cons, hacs]
          simp [hax]
        · have hacs2 : cs.all (fun q => decide (a.priority ≤ q.priority)) = false := by
            simpa using hacs
          simp only [List.all_cons, hacs2]
          simp
      rw [hcong, ih]
      cases cs with
      | nil => exact absurd hr (List.not_mem_nil r)
      | cons c0 cs0 =>
        show firstMin (c0 :: cs0) = firstMin (x :: c0 :: cs0)
        simp only [firstMin]
        rw [List.foldl_cons]
        by_cases hc0 : c0.priority < x.priority
        · rw [show pickBetter x c0 = c0 from if_pos hc0]
        · rw [show pickBetter x c0 = x from if_neg hc0]
          have hrcs0 : r ∈ cs0 := by
            rcases List.mem_cons.mp hr with h1 | h1
            · exact absurd (h1 ▸ hrx) (not_lt_of_le (le_of_not_lt hc0))
            · exact h1
          exact congrArg some
            (foldl_pickBetter_acc cs0 c0 x
              ⟨r, hrcs0, lt_of_lt_of_le hrx (le_of_not_lt hc0), hrx⟩)

/-- Spec-side removal of the entry registered under `key` (used to state
that disabling an entry "removes it from resolution"). -/
def eraseFirstKey (key : String) : Registry → Registry
  | [] => []
  | (k, v) :: rest => if k == key then rest else (k, v) :: eraseFirstKey key rest

theorem enabledValues_setEnabled_false (key : String) (reg : Registry) :
    ((mapUpdate key (fun platform => { platform with enabled := false }) reg).map
        (fun kv => kv.2)).filter (fun p => p.enabled)
      = ((eraseFirstKey key reg).map (fun kv => kv.2)).filter (fun p => p.enabled) := by
  induction reg with
  | nil => rfl
  | cons kv rest ih =>
    obtain ⟨k, v⟩ := kv
    by_cases hk : (k == key) = true
    · simp [mapUpdate, eraseFirstKey, hk, List.filter_cons]
    · have hkb : (k == key) = false := by simpa using hk
      simp only [mapUpdate, eraseFirstKey, hkb, Bool.false_eq_true, if_false,
        List.map_cons, List.filter_cons]
      rw [ih]

theorem mapUpdate_preserves_shape (key : String) (f : PlatformConfig → PlatformConfig)
    (hf : ∀ p, (f p).name = p.name ∧ (f p).module = p.module
      ∧ (f p).patterns = p.patterns ∧ (f p).priority = p.priority)
    (reg : Registry) :
    (mapUpdate key f reg).map
        (fun kv => (kv.1, kv.2.name, kv.2.module, kv.2.patterns, kv.2.priority))
      = reg.map (fun kv => (kv.1, kv.2.name, kv.2.module, kv.2.patterns, kv.2.priority)) := by
  induction reg with
  | nil => rfl
  | cons kv rest ih =>
    obtain ⟨k, v⟩ := kv
    by_cases hk : (k == key) = true
    · obtain ⟨h1, h2, h3, h4⟩ := hf v
      simp [mapUpdate, hk, h1, h2, h3, h4]
    · have hkb : (k == key) = false := by simpa using hk
      simp only [mapUpdate, hkb, Bool.false_eq_true, if_false, List.map_cons]
      rw [ih]

theorem setEnabled_roundtrip (key : String) (reg : Registry) (p : PlatformConfig)
    (hget : alGet reg key = some p) (hp : p.enabled = true) :
    mapUpdate key (fun platform => { platform with enabled := true })
        (mapUpdate key (fun platform => { platform with enabled := false }) reg) = reg := by
  induction reg with
  | nil => simp [alGet] at hget
  | cons kv rest ih =>
    obtain ⟨k, v⟩ := kv
    by_cases hk : (k == key) = true
    · have hv : v = p := by
        simp only [alGet, List.find?_cons, hk] at hget
        exact Option.some.inj hget
      simp only [mapUpdate, hk, if_pos]
      cases v with
      | mk nm md pats en pr =>
        have hen : en = true := by
          have h2 := hp
          rw [← hv] at h2
          exact h2
        subst hen
        rfl
    · have hkb : (k == key) = false := by simpa using hk
      have hget2 : alGet rest key = some p := by
        simpa only [alGet, List.find?_cons, hkb] using hget
      simp only [mapUpdate, hkb, Bool.false_eq_true, if_false]
      rw [ih hget2]

end HybridConfig

namespace HybridConfig

theorem runListeners_append {α σ : Type} (key : String) (data : α)
    (ls1 ls2 : List (EvListener α σ)) (s : σ) :
    runListeners key data s (ls1 ++ ls2)
      = ((runListeners key data (runListeners key data s ls1).1 ls2).1,
         (runListeners key data s ls1).2
           ++ (runListeners key data (runListeners key data s ls1).1 ls2).2) := by
  induction ls1 generalizing s with
  | nil => simp [runListeners]
  | cons l ls ih =>
    cases hl : l.handler data s with
    | ok s2 =>
      simp only [List.cons_append, runListeners, hl]
      exact ih s2
    | error e =>
      simp only [List.cons_append, runListeners, hl, List.append_eq]
      rw [ih s]

end HybridConfig

namespace FileLinkReader

theorem bareFold_extends (ts : List String) : ∀ acc : List String,
    ∃ extra, bareFold acc ts = acc ++ extra ∧ extra.Nodup ∧ ∀ u ∈ extra, u ∉ acc := by
  induction ts with
  | nil =>
    intro acc
    exact ⟨[], by simp [bareFold], List.nodup_nil, by simp⟩
  | cons t ts ih =>
    intro acc
    by_cases hc : (isValidUrl (stripTrailingPunct t)
        && !acc.contains (stripTrailingPunct t)) = true
    · obtain ⟨extra, he, hn, hf⟩ := ih (acc ++ [stripTrailingPunct t])
      refine ⟨stripTrailingPunct t :: extra, ?_, ?_, ?_⟩
      · simp only [bareFold, hc, if_pos]
        rw [he]
        simp
      · refine List.nodup_cons.mpr ⟨?_, hn⟩
        intro hmem
        exact hf _ hmem (by simp)
      · intro u hu
        rcases List.mem_cons.mp hu with h1 | h1
        · subst h1
          have h2 := Bool.and_elim_right hc
          simpa using h2
        · intro hmem
          exact hf u h1 (by simp [hmem])
    · obtain ⟨extra, he, hn, hf⟩ := ih acc
      have hcb : (isValidUrl (stripTrailingPunct t)
          && !acc.contains (stripTrailingPunct t)) = false := by simpa using hc
      refine ⟨extra, ?_, hn, hf⟩
      simp only [bareFold, hcb, Bool.false_eq_true, if_false]
      exact he

end FileLinkReader

/-- C2: for every URL and every registry state, `detectPlatform` considers
only enabled entries, tries them in ascending numeric priority with ties
broken by registration order, and returns the first entry any one of whose
patterns matches the URL — equivalently, the earliest-registered candidate
of minimal priority, which is what `detectPlatformSpec` transcribes from the
spec; in particular a lower-priority-value match always beats a
higher-priority one and registration order decides exact ties. -/
theorem claim2_resolution_priority_order (url : String) (reg : Registry) :
    HybridConfig.detectPlatform url reg = HybridConfig.detectPlatformSpec url reg := by
  simp only [HybridConfig.detectPlatform, HybridConfig.detectPlatformSpec]
  rw [HybridConfig.find_sortByPriority, HybridConfig.find_all_le_eq_firstMin,
    List.filter_filter]
  exact congrArg HybridConfig.firstMin
    (List.filter_congr (fun a _ => by rw [Bool.and_comm]))

/-- C5: a batch of three URLs deployed to the main stage deploys item 0
immediately; each `'ended'` firing deploys the next item exactly once, in
order; after the second firing the cursor is terminal (index 3) and a third
firing deploys nothing further. -/
theorem claim5_batch_of_three_plays_in_order (u0 u1 u2 : String) :
    (LinkDeployerCore.deployMultipleToVideoStage [u0, u1, u2]
        LinkDeployerCore.initWorld).stageCalls = [u0]
      ∧ (LinkDeployerCore.fireEnded (LinkDeployerCore.deployMultipleToVideoStage
          [u0, u1, u2] LinkDeployerCore.initWorld)).stageCalls = [u0, u1]
      ∧ (LinkDeployerCore.fireEnded (LinkDeployerCore.fireEnded
          (LinkDeployerCore.deployMultipleToVideoStage [u0, u1, u2]
            LinkDeployerCore.initWorld))).stageCalls = [u0, u1, u2]
      ∧ (LinkDeployerCore.fireEnded (LinkDeployerCore.fireEnded
          (LinkDeployerCore.deployMultipleToVideoStage [u0, u1, u2]
            LinkDeployerCore.initWorld))).playlists = [⟨[u0, u1, u2], 2⟩]
      ∧ (LinkDeployerCore.fireEnded (LinkDeployerCore.fireEnded (LinkDeployerCore.fireEnded
          (LinkDeployerCore.deployMultipleToVideoStage [u0, u1, u2]
            LinkDeployerCore.initWorld)))).stageCalls = [u0, u1, u2]
      ∧ (LinkDeployerCore.fireEnded (LinkDeployerCore.fireEnded (LinkDeployerCore.fireEnded
          (LinkDeployerCore.deployMultipleToVideoStage [u0, u1, u2]
            LinkDeployerCore.initWorld)))).playlists = [⟨[u0, u1, u2], 3⟩] :=
  ⟨rfl, rfl, rfl, rfl, rfl, rfl⟩

/-- C1 counterexample: a 3-item playlist is mid-sequence (items 0 and 1
deployed); a new single-URL deployment is started (`s` deployed); the next
`'ended'` firing still deploys item 2 of the old batch — the old playlist's
observer was not detached and the batch is not cancelled. -/
theorem claim1_counterexample :
    let w1 := LinkDeployerCore.deployMultipleToVideoStage
      ["https://youtu.be/a", "https://youtu.be/b", "https://youtu.be/c"]
      LinkDeployerCore.initWorld
    let w2 := LinkDeployerCore.fireEnded w1
    let w3 := LinkDeployerCore.handleDeploy LinkDeployerCore.DeployMode.videoStage
      (LinkDeployerCore.setCurrentUrl "https://youtu.be/s" w2)
    let w4 := LinkDeployerCore.fireEnded w3
    w3.stageCalls = ["https://youtu.be/a", "https://youtu.be/b", "https://youtu.be/s"]
      ∧ w4.stageCalls = ["https://youtu.be/a", "https://youtu.be/b",
          "https://youtu.be/s", "https://youtu.be/c"]
      ∧ w3.playlists = [⟨["https://youtu.be/a", "https://youtu.be/b", "https://youtu.be/c"], 1⟩] :=
  ⟨rfl, rfl, rfl⟩

/-- C1 (amended): starting a new single-URL deployment does not cancel a
live playlist: `deploySingleUrl` leaves the attached `'ended'` observers and
their cursors unchanged (no detachment happens anywhere on the single-URL
path), so subsequent `'ended'` firings keep advancing the old batch. -/
theorem claim1_amended_single_deploy_keeps_old_playlist
    (url : String) (mode : LinkDeployerCore.DeployMode) (platform : Option String)
    (w : LinkDeployerCore.World) :
    (LinkDeployerCore.deploySingleUrl url mode platform w).playlists = w.playlists := by
  cases mode <;> rfl

/-- C4 counterexample: `"not a url"` is syntactically malformed
(`validateUrl` rejects it), yet `handleDeploy` performs no validation: the
single-URL path runs, the platform defaults to `'Generic'`, the stage path
is entered, and completion is reported to the caller via `onDeploy` — no
`InvalidInput` failure, and further action is performed. -/
theorem claim4_counterexample :
    LinkDeployerCore.validateUrl "not a url" = false
      ∧ (LinkDeployerCore.handleDeploy LinkDeployerCore.DeployMode.videoStage
          (LinkDeployerCore.setCurrentUrl "not a url" LinkDeployerCore.initWorld)).stageCalls
        = ["not a url"]
      ∧ (LinkDeployerCore.handleDeploy LinkDeployerCore.DeployMode.videoStage
          (LinkDeployerCore.setCurrentUrl "not a url" LinkDeployerCore.initWorld)).onDeployLog
        = [⟨"url", LinkDeployerCore.DeployMode.videoStage, some "not a url",
            none, none, none, some "Generic"⟩] :=
  ⟨rfl, rfl, rfl⟩

/-- C4 (amended): for a malformed single URL, `handleDeploy` does not fail
with `InvalidInput` and does not stop: it resolves the platform to
`'Generic'` (the detector's catch branch), runs `deploySingleUrl`, delivers
nothing to either surface (no module is registered for `'Generic'`, so
`videoSrc` and `embedWindows` are untouched), and reports completion via
`onDeploy`. -/
theorem claim4_amended_no_validation_in_handleDeploy
    (w : LinkDeployerCore.World) (u : String)
    (h1 : w.currentUrl = u) (h2 : u ≠ "") (h3 : parseURL u = none) :
    LinkDeployerCore.handleDeploy LinkDeployerCore.DeployMode.videoStage w
        = { w with stageCalls := w.stageCalls ++ [u],
                   onDeployLog := w.onDeployLog
                     ++ [⟨"url", LinkDeployerCore.DeployMode.videoStage, some u,
                          none, none, none, some "Generic"⟩] }
      ∧ LinkDeployerCore.handleDeploy LinkDeployerCore.DeployMode.embed w
        = { w with embedCalls := w.embedCalls ++ [u],
                   onDeployLog := w.onDeployLog
                     ++ [⟨"url", LinkDeployerCore.DeployMode.embed, some u,
                          none, none, none, some "Generic"⟩] } := by
  subst h1
  have hd : LinkDeployerCore.detectPlatform w.currentUrl = none := by
    simp [LinkDeployerCore.detectPlatform, h3]
  constructor
  · simp only [LinkDeployerCore.handleDeploy]
    rw [if_pos h2, hd]
    rfl
  · simp only [LinkDeployerCore.handleDeploy]
    rw [if_pos h2, hd]
    rfl

/-- C4 (amended) witness at the concrete malformed input `"not a url"`. -/
theorem claim4_amended_witness :
    LinkDeployerCore.handleDeploy LinkDeployerCore.DeployMode.embed
        (LinkDeployerCore.setCurrentUrl "not a url" LinkDeployerCore.initWorld)
      = { LinkDeployerCore.setCurrentUrl "not a url" LinkDeployerCore.initWorld with
          embedCalls := ["not a url"],
          onDeployLog := [⟨"url", LinkDeployerCore.DeployMode.embed, some "not a url",
            none, none, none, some "Generic"⟩] } :=
  (claim4_amended_no_validation_in_handleDeploy
    (LinkDeployerCore.setCurrentUrl "not a url" LinkDeployerCore.initWorld)
    "not a url" rfl (by decide) rfl).2

/-- C3 counterexample: plain-text extraction of a file whose two lines are
the same URL returns that URL twice — `extract` does not de-duplicate for
the plain-text kind, so its output is not duplicate-free. -/
theorem claim3_counterexample :
    LinkProcessor.extractUrls "https://a.mp4\nhttps://a.mp4" "links.txt"
        = ["https://a.mp4", "https://a.mp4"]
      ∧ ¬ (LinkProcessor.extractUrls "https://a.mp4\nhttps://a.mp4" "links.txt").Nodup := by
  refine ⟨rfl, ?_⟩
  have h : LinkProcessor.extractUrls "https://a.mp4\nhttps://a.mp4" "links.txt"
      = ["https://a.mp4", "https://a.mp4"] := rfl
  rw [h]
  decide

/-- C3 (amended): de-duplication happens only in the linked-document
reader's bare-token second pass: `readMarkdownUrls` is the markdown-link
pass followed by a suffix of bare-token URLs that is itself duplicate-free
and disjoint from the first pass (each bare URL is appended only when not
already present).  The structured-record, plain-text and no-hint extractors
perform no de-duplication, and duplicates among markdown-link captures are
kept (see the counterexample). -/
theorem claim3_amended_dedup_only_in_markdown_bare_pass (content : String) :
    ∃ extra, FileLinkReader.readMarkdownUrls content
        = FileLinkReader.mdLinkPass content ++ extra
      ∧ extra.Nodup
      ∧ ∀ u ∈ extra, u ∉ FileLinkReader.mdLinkPass content :=
  FileLinkReader.bareFold_extends (FileLinkReader.bareTokens content)
    (FileLinkReader.mdLinkPass content)

/-- C6: the YouTube handler's `process` (make-playable) fails — with the
`InvalidReference` message — exactly when `extractVideoId` yields none; when
a reference is extracted it deterministically returns the embed URL built
from the video id. -/
theorem claim6_makePlayable_iff_reference (url : String) :
    (YouTubeModule.extractVideoId url = none →
      YouTubeModule.process url = Except.error YouTubeModule.invalidUrlMsg)
      ∧ (∀ videoId, YouTubeModule.extractVideoId url = some videoId →
          YouTubeModule.process url
            = Except.ok ("https://www.youtube.com/embed/" ++ videoId
                ++ "?autoplay=1&enablejsapi=1")) := by
  constructor
  · intro h
    simp [YouTubeModule.process, h]
  · intro videoId h
    simp [YouTubeModule.process, h]

/-- C6 witness: both sides of the equivalence at concrete URLs. -/
theorem claim6_makePlayable_witness :
    YouTubeModule.process "https://www.youtube.com/watch?v=abc"
        = Except.ok "https://www.youtube.com/embed/abc?autoplay=1&enablejsapi=1"
      ∧ YouTubeModule.process "https://example.com/clip"
        = Except.error YouTubeModule.invalidUrlMsg :=
  ⟨(claim6_makePlayable_iff_reference "https://www.youtube.com/watch?v=abc").2 "abc" rfl,
   (claim6_makePlayable_iff_reference "https://example.com/clip").1 rfl⟩

/-- C7: `extractVideoId` (identify-reference) is a total function — in this
embedding it can never raise — and it returns none both when the URL
constructor would throw (malformed input, the catch branch) and when the
host is neither a youtu.be nor a youtube.com host. -/
theorem claim7_identifyReference_total_none (url : String) :
    (parseURL url = none → YouTubeModule.extractVideoId url = none)
      ∧ (∀ urlObj, parseURL url = some urlObj →
          containsSub "youtu.be" (toLowerStr urlObj.hostname) = false →
          containsSub "youtube.com" (toLowerStr urlObj.hostname) = false →
          YouTubeModule.extractVideoId url = none) := by
  constructor
  · intro h
    simp [YouTubeModule.extractVideoId, h]
  · intro urlObj h h1 h2
    simp [YouTubeModule.extractVideoId, h, h1, h2]

/-- C7 witness: malformed input and a non-YouTube host both yield none. -/
theorem claim7_identifyReference_witness :
    YouTubeModule.extractVideoId "::bad::" = none
      ∧ YouTubeModule.extractVideoId "https://example.com/watch?v=abc" = none :=
  ⟨(claim7_identifyReference_total_none "::bad::").1 rfl,
   (claim7_identifyReference_total_none "https://example.com/watch?v=abc").2
     ⟨"https:", "example.com", "/watch", [("v", "abc")]⟩ rfl rfl rfl⟩

/-- C10: extraction from unparseable structured content is total: whenever
the content does not parse as JSON (the `JSON.parse` model returns none,
i.e. the builtin throws), `readJsonUrls` catches and returns the empty
sequence. -/
theorem claim10_unparseable_json_yields_empty (content : String)
    (h : jsonParse content = none) :
    FileLinkReader.readJsonUrls content = [] := by
  simp [FileLinkReader.readJsonUrls, h]

/-- C10 witness at a concrete unparseable input. -/
theorem claim10_unparseable_json_witness :
    jsonParse "not json" = none ∧ FileLinkReader.readJsonUrls "not json" = [] :=
  ⟨rfl, claim10_unparseable_json_yields_empty "not json" rfl⟩

/-- C8: publishing an event runs the subscribers for the `(event, platform)`
key synchronously in subscription order, and a failing handler is isolated:
with subscribers `ls1 ++ [l] ++ ls2` where `l` throws, `emitEvent` still
returns normally, the state is that of running `ls1` and then `ls2` (the
failing handler contributes nothing but a logged console error between
them), and every remaining subscriber runs. -/
theorem claim8_emit_order_and_isolation {α σ : Type} (event platform : String)
    (data : α) (s : σ) (m : HybridConfig.ListenerMap α σ)
    (ls1 ls2 : List (HybridConfig.EvListener α σ)) (l : HybridConfig.EvListener α σ)
    (e : String)
    (hm : alGet m (event ++ ":" ++ platform) = some (ls1 ++ l :: ls2))
    (hl : l.handler data
        (HybridConfig.runListeners (event ++ ":" ++ platform) data s ls1).1
      = Except.error e) :
    HybridConfig.emitEvent event platform data s m
      = ((HybridConfig.runListeners (event ++ ":" ++ platform) data
            (HybridConfig.runListeners (event ++ ":" ++ platform) data s ls1).1 ls2).1,
         (HybridConfig.runListeners (event ++ ":" ++ platform) data s ls1).2
           ++ ("Error in event listener for " ++ (event ++ ":" ++ platform) ++ ": " ++ e)
             :: (HybridConfig.runListeners (event ++ ":" ++ platform) data
                  (HybridConfig.runListeners (event ++ ":" ++ platform) data s ls1).1 ls2).2) := by
  simp only [HybridConfig.emitEvent]
  rw [hm]
  show HybridConfig.runListeners (event ++ ":" ++ platform) data s (ls1 ++ l :: ls2) = _
  rw [HybridConfig.runListeners_append]
  simp only [HybridConfig.runListeners, hl]

/-- C8 witness: three concrete subscribers on one key, the middle one
throwing; both flanking handlers run, in order, and the failure is only
logged. -/
theorem claim8_emit_witness :
    HybridConfig.emitEvent "ev" "pf" () ([] : List Nat)
        [("ev:pf", [⟨"ev", "pf", fun _ s => Except.ok (s ++ [1])⟩,
                    ⟨"ev", "pf", fun _ _ => Except.error "boom"⟩,
                    ⟨"ev", "pf", fun _ s => Except.ok (s ++ [2])⟩])]
      = ([1, 2], ["Error in event listener for ev:pf: boom"]) :=
  claim8_emit_order_and_isolation "ev" "pf" () ([] : List Nat)
    [("ev:pf", [⟨"ev", "pf", fun _ s => Except.ok (s ++ [1])⟩,
                ⟨"ev", "pf", fun _ _ => Except.error "boom"⟩,
                ⟨"ev", "pf", fun _ s => Except.ok (s ++ [2])⟩])]
    [⟨"ev", "pf", fun _ s => Except.ok (s ++ [1])⟩]
    [⟨"ev", "pf", fun _ s => Except.ok (s ++ [2])⟩]
    ⟨"ev", "pf", fun _ _ => Except.error "boom"⟩
    "boom" rfl rfl

/-- C9: disabling a registered entry only flips its `enabled` flag — name,
module, patterns, priority, key and position of every entry are unchanged —
so (1) the registry keeps its shape, (2) when the entry was enabled,
re-enabling it restores the registry state exactly, and (3) resolution with
the entry disabled coincides with resolution over the registry with that
entry removed. -/
theorem claim9_disable_is_pure_and_reversible (n : String) (b : Bool)
    (reg : Registry) (url : String) (p : PlatformConfig) :
    ((HybridConfig.setPlatformEnabled n b reg).map
        (fun kv => (kv.1, kv.2.name, kv.2.module, kv.2.patterns, kv.2.priority))
      = reg.map (fun kv => (kv.1, kv.2.name, kv.2.module, kv.2.patterns, kv.2.priority)))
    ∧ (HybridConfig.getPlatform n reg = some p → p.enabled = true →
        HybridConfig.setPlatformEnabled n true (HybridConfig.setPlatformEnabled n false reg)
          = reg)
    ∧ HybridConfig.detectPlatform url (HybridConfig.setPlatformEnabled n false reg)
        = HybridConfig.detectPlatform url (HybridConfig.eraseFirstKey (toLowerStr n) reg) := by
  refine ⟨?_, ?_, ?_⟩
  · exact HybridConfig.mapUpdate_preserves_shape (toLowerStr n)
      (fun platform => { platform with enabled := b })
      (fun q => ⟨rfl, rfl, rfl, rfl⟩) reg
  · intro hget hp
    exact HybridConfig.setEnabled_roundtrip (toLowerStr n) reg p hget hp
  · simp only [HybridConfig.detectPlatform, HybridConfig.setPlatformEnabled]
    rw [HybridConfig.enabledValues_setEnabled_false]

/-- C9 witness on a concrete one-entry registry with the entry enabled. -/
theorem claim9_disable_witness :
    HybridConfig.setPlatformEnabled "YouTube" true
        (HybridConfig.setPlatformEnabled "YouTube" false
          [("youtube", ⟨"YouTube", youtubeModule, [], true, 100⟩)])
      = [("youtube", ⟨"YouTube", youtubeModule, [], true, 100⟩)] :=
  (claim9_disable_is_pure_and_reversible "YouTube" false
    [("youtube", ⟨"YouTube", youtubeModule, [], true, 100⟩)]
    "https://youtu.be/x" ⟨"YouTube", youtubeModule, [], true, 100⟩).2.1 rfl rfl
